import Mathlib

/-!
# Verification of the mcp-express-adapter core

A shallow embedding of the repository's two core modules:

* `src/lib/tools.ts` — the `mcpTool` schema-validating handler wrapper and
  `formatOutput`;
* `src/lib/mcp-client.ts` — the `MCPClient` class: tool registration against the
  protocol's tool-definition schema, the `/sse` session lifecycle, the
  `/message` intake endpoint, and the `tools/call` dispatch with
  `AsyncLocalStorage`-propagated request headers.

JavaScript runtime values are modelled by `JsValue` (numbers restricted to
integers; no claim depends on float behaviour).  The external zod library is
modelled by validator functions returning either a transformed value or a list
of `ZodIssue`s, exactly the interface `mcpTool` consumes.  The external
`AsyncLocalStorage` is modelled by its documented contract: the store
established by `run` around one forwarding call is the store `getStore`
returns inside that same logical call chain, and no other.
-/

set_option maxHeartbeats 1000000

namespace Mea

/-! ## JavaScript values -/

mutual
/-- A JavaScript runtime value (numbers restricted to integers). -/
inductive JsValue where
  | str (s : String)
  | num (n : Int)
  | bool (b : Bool)
  | null
  | undefined
  | obj (fields : JsFields)
  | arr (elems : JsList)
deriving DecidableEq, Repr

/-- The elements of a JavaScript array. -/
inductive JsList where
  | nil
  | cons (hd : JsValue) (tl : JsList)
deriving DecidableEq, Repr

/-- The own enumerable properties of a JavaScript object, in insertion order. -/
inductive JsFields where
  | nil
  | cons (key : String) (val : JsValue) (tl : JsFields)
deriving DecidableEq, Repr
end

/-- Build a `JsList` from a Lean list. -/
def JsList.ofList : List JsValue → JsList
  | [] => .nil
  | v :: vs => .cons v (JsList.ofList vs)

/-- Build a `JsFields` from a Lean list of key/value pairs. -/
def JsFields.ofList : List (String × JsValue) → JsFields
  | [] => .nil
  | (k, v) :: ps => .cons k v (JsFields.ofList ps)

/-- Object-literal notation `{k1: v1, ...}`. -/
def JsValue.mkObj (l : List (String × JsValue)) : JsValue :=
  .obj (JsFields.ofList l)

/-- First binding of `k` among an object's fields. -/
def JsFields.get? : JsFields → String → Option JsValue
  | .nil, _ => none
  | .cons k v tl, key => if k = key then some v else tl.get? key

/-- JavaScript `typeof`. -/
def jsTypeof : JsValue → String
  | .str _ => "string"
  | .num _ => "number"
  | .bool _ => "boolean"
  | .null => "object"
  | .undefined => "undefined"
  | .obj _ => "object"
  | .arr _ => "object"

/-- JavaScript truthiness. -/
def jsTruthy : JsValue → Bool
  | .str s => s ≠ ""
  | .num n => n ≠ 0
  | .bool b => b
  | .null => false
  | .undefined => false
  | .obj _ => true
  | .arr _ => true

/-- JavaScript `a || b`. -/
def jsOr (a b : JsValue) : JsValue :=
  if jsTruthy a then a else b

/-- JavaScript `Array.isArray`. -/
def jsIsArray : JsValue → Bool
  | .arr _ => true
  | _ => false

/-- Property read `v[k]` on a value known not to be `null`/`undefined`:
missing properties and properties of primitives read as `undefined`. -/
def jsGetD (v : JsValue) (k : String) : JsValue :=
  match v with
  | .obj fs => (fs.get? k).getD .undefined
  | _ => .undefined

/-- A JavaScript error value: either a zod `ZodError` (carrying its issues)
or any other thrown error (carrying its `message`). -/
structure ZodIssue where
  path : List String
  message : String
deriving DecidableEq, Repr

inductive JsError where
  | zodError (issues : List ZodIssue)
  | other (message : String)
deriving DecidableEq, Repr

/-- Property read `v[k]` in full generality: reading a property of `null` or
`undefined` throws a `TypeError`. -/
def jsMember (v : JsValue) (k : String) : Except JsError JsValue :=
  match v with
  | .null => .error (.other ("Cannot read properties of null (reading '" ++ k ++ "')"))
  | .undefined => .error (.other ("Cannot read properties of undefined (reading '" ++ k ++ "')"))
  | .obj fs => .ok ((fs.get? k).getD .undefined)
  | _ => .ok .undefined

/-! ## JSON serialization (the runtime's `JSON.stringify`) -/

/-- Quote a string as a JSON string literal. -/
def jsonQuote (s : String) : String :=
  "\"" ++ String.join (s.data.map (fun c =>
    if c = '"' then "\\\""
    else if c = '\\' then "\\\\"
    else if c = '\n' then "\\n"
    else if c = '\t' then "\\t"
    else if c = '\r' then "\\r"
    else String.singleton c)) ++ "\""

mutual
/-- Compact `JSON.stringify(v)`; `none` when the value is not
serializable (`undefined`). -/
def jsonStringifyC : JsValue → Option String
  | .str s => some (jsonQuote s)
  | .num n => some (toString n)
  | .bool b => some (if b then "true" else "false")
  | .null => some "null"
  | .undefined => none
  | .arr elems => some ("[" ++ String.intercalate "," (jsonItemsC elems) ++ "]")
  | .obj fields => some ("\x7b" ++ String.intercalate "," (jsonFieldsC fields) ++ "\x7d")

/-- Array elements, compact form; unserializable elements render as `null`. -/
def jsonItemsC : JsList → List String
  | .nil => []
  | .cons e tl => ((jsonStringifyC e).getD "null") :: jsonItemsC tl

/-- Object members, compact form; unserializable members are skipped. -/
def jsonFieldsC : JsFields → List String
  | .nil => []
  | .cons k v tl =>
      match jsonStringifyC v with
      | none => jsonFieldsC tl
      | some s => (jsonQuote k ++ ":" ++ s) :: jsonFieldsC tl
end

mutual
/-- Indented `JSON.stringify(v, null, 2)`: two-space-indented serialization; the
`indent` argument is the enclosing indentation. -/
def jsonStringifyI : JsValue → String → Option String
  | .str s, _ => some (jsonQuote s)
  | .num n, _ => some (toString n)
  | .bool b, _ => some (if b then "true" else "false")
  | .null, _ => some "null"
  | .undefined, _ => none
  | .arr .nil, _ => some "[]"
  | .arr elems, indent =>
      let ind := indent ++ "  "
      some ("[\n" ++ ind ++ String.intercalate (",\n" ++ ind) (jsonItemsI elems ind)
        ++ "\n" ++ indent ++ "]")
  | .obj fields, indent =>
      let ind := indent ++ "  "
      match jsonFieldsI fields ind with
      | [] => some "\x7b\x7d"
      | fs => some ("\x7b\n" ++ ind ++ String.intercalate (",\n" ++ ind) fs
          ++ "\n" ++ indent ++ "\x7d")

/-- Array elements, indented form. -/
def jsonItemsI : JsList → String → List String
  | .nil, _ => []
  | .cons e tl, ind => ((jsonStringifyI e ind).getD "null") :: jsonItemsI tl ind

/-- Object members, indented form. -/
def jsonFieldsI : JsFields → String → List String
  | .nil, _ => []
  | .cons k v tl, ind =>
      match jsonStringifyI v ind with
      | none => jsonFieldsI tl ind
      | some s => (jsonQuote k ++ ": " ++ s) :: jsonFieldsI tl ind
end

/-- Rendering of `JSON.stringify(v)` inside a template literal: an unserializable
value renders as the string `undefined`. -/
def jsonDisplayC (v : JsValue) : String :=
  (jsonStringifyC v).getD "undefined"

/-- Rendering of `JSON.stringify(v, null, 2)` inside a template literal likewise. -/
def jsonDisplayI (v : JsValue) : String :=
  (jsonStringifyI v "").getD "undefined"

/-! ## `src/lib/tools.ts`: the `mcpTool` validating wrapper -/

/-- The invocation context handed to a tool handler (`{ headers }`). -/
structure ToolContext where
  headers : List (String × String)
deriving DecidableEq, Repr

/-- A user tool handler: from arguments and optional context to a returned
value or a thrown error (`async` resolution/rejection). -/
def Handler : Type :=
  JsValue → Option ToolContext → Except JsError JsValue

/-- A zod schema's `parse`: either the validated (possibly transformed)
value, or the thrown `ZodError`'s issue list. -/
def ZodParse : Type :=
  JsValue → Except (List ZodIssue) JsValue

/-- Text block `{ type: 'text', text: s }`. -/
def textContent (s : String) : JsValue :=
  JsValue.mkObj [("type", .str "text"), ("text", .str s)]

/-- Success response `{ content: [...] }` with no `isError` field. -/
def contentResponse (blocks : List JsValue) : JsValue :=
  JsValue.mkObj [("content", .arr (JsList.ofList blocks))]

/-- Error response `{ content: [{ type: 'text', text: s }], isError: true }`. -/
def errorFlaggedResponse (s : String) : JsValue :=
  JsValue.mkObj [("content", .arr (.cons (textContent s) .nil)), ("isError", .bool true)]

/-- Issue list rendering `error.errors.map(e => e.path.join('.') + ': ' + e.message).join(', ')`. -/
def formatIssues (issues : List ZodIssue) : String :=
  String.intercalate ", "
    (issues.map (fun e => String.intercalate "." e.path ++ ": " ++ e.message))

/-- The input-validation error response built in `mcpTool`'s catch block. -/
def inputValidationErrorResponse (issues : List ZodIssue) : JsValue :=
  errorFlaggedResponse ("Input validation error: " ++ formatIssues issues)

/-- The output-validation error response built around `outputSchema.parse`. -/
def outputValidationErrorResponse (issues : List ZodIssue) : JsValue :=
  errorFlaggedResponse ("Output validation error: " ++ formatIssues issues)

/-- The response for a non-string return when no output schema was given. -/
def nonStringResponse (result : JsValue) : JsValue :=
  errorFlaggedResponse
    ("Handler returned non-string value, but no output schema was provided. Value: "
      ++ jsonDisplayC result)

/-- Test `output && typeof output === 'object' && Array.isArray(output.content)`:
the value is already a protocol-shaped response carrying a content list. -/
def isMcpShaped (output : JsValue) : Bool :=
  jsTruthy output && (jsTypeof output == "object") && jsIsArray (jsGetD output "content")

/-- The `formatOutput` function (tools.ts lines 155-177): format a handler's return value
into the MCP response shape. -/
def formatOutput (output : JsValue) : JsValue :=
  if isMcpShaped output then
    output
  else
    match output with
    | .str s => contentResponse [textContent s]
    | .null => contentResponse [textContent ""]
    | .undefined => contentResponse [textContent ""]
    | .obj _ => contentResponse [textContent (jsonDisplayI output)]
    | .arr _ => contentResponse [textContent (jsonDisplayI output)]
    | .num n => contentResponse [textContent (toString n)]
    | .bool b => contentResponse [textContent (if b then "true" else "false")]

/-- The `try` block of the wrapped handler returned by `mcpTool`
(tools.ts lines 87-130): input validation, handler call, optional output
validation, then formatting.  A `ZodError` thrown by `outputSchema.parse`
is handled inline; any other error propagates. -/
def mcpToolTryBody (schemaParse : ZodParse) (outputSchemaParse : Option ZodParse)
    (handler : Handler) (args : JsValue) (context : Option ToolContext) :
    Except JsError JsValue :=
  match schemaParse args with
  | .error issues => .error (.zodError issues)
  | .ok validatedArgs =>
    match handler validatedArgs context with
    | .error e => .error e
    | .ok result =>
      match outputSchemaParse with
      | some oparse =>
          match oparse result with
          | .error issues => .ok (outputValidationErrorResponse issues)
          | .ok _ => .ok (formatOutput result)
      | none =>
          if jsTypeof result = "string" then .ok (formatOutput result)
          else .ok (nonStringResponse result)

/-- The wrapped handler returned by `mcpTool` (tools.ts lines 86-147): the
`try` body under the catch block that converts a thrown `ZodError` into the
input-validation error response and rethrows anything else. -/
def mcpToolHandler (schemaParse : ZodParse) (outputSchemaParse : Option ZodParse)
    (handler : Handler) (args : JsValue) (context : Option ToolContext) :
    Except JsError JsValue :=
  match mcpToolTryBody schemaParse outputSchemaParse handler args context with
  | .error (.zodError issues) => .ok (inputValidationErrorResponse issues)
  | .error e => .error e
  | .ok r => .ok r

/-! ## `src/lib/mcp-client.ts`: tool registration -/

/-- A tool specification handed to the `MCPClient` constructor
(`ToolImpl`).  `description` and `inputSchema` are runtime values: the
TypeScript annotations are erased, so malformed shapes can reach the
constructor. -/
structure ToolImpl where
  name : String
  description : JsValue
  inputSchema : JsValue
  handler : Handler

/-- A built tool definition (constructor lines 95-99). -/
structure ToolDef where
  name : String
  description : JsValue
  inputSchema : JsValue
deriving DecidableEq, Repr

/-- Default fallback `inputSchema: impl.inputSchema || { type: 'object', properties: {} }`. -/
def defaultInputSchema : JsValue :=
  JsValue.mkObj [("type", .str "object"), ("properties", .obj .nil)]

/-- Build the tool definition for one specification (constructor lines 95-99). -/
def buildToolDefinition (impl : ToolImpl) : ToolDef :=
  { name := impl.name
    description := impl.description
    inputSchema := jsOr impl.inputSchema defaultInputSchema }

/-- Modelled from the spec: the protocol's tool-definition schema
(`ToolSchema.parse` from the external protocol SDK, not part of this
repository).  A definition passes when its name is a string (by
construction here), its description is a string or absent, and its input
schema is an object whose `type` is the literal `'object'`. -/
def toolSchemaParseOk (d : ToolDef) : Bool :=
  (match d.description with
   | .str _ => true
   | .undefined => true
   | _ => false) &&
  (match d.inputSchema with
   | .obj _ => decide (jsGetD d.inputSchema "type" = .str "object")
   | _ => false)

/-- Lookup in a string-keyed JavaScript record / `Map` (first binding). -/
def recordLookup {κ α : Type} [DecidableEq κ] (m : List (κ × α)) (k : κ) : Option α :=
  (m.find? (fun p => p.1 = k)).map (·.2)

/-- Assignment `m[k] = v` on a JavaScript record / `Map.set`: overwrites in
place when the key exists, otherwise appends (insertion order kept). -/
def recordSet {κ α : Type} [DecidableEq κ] (m : List (κ × α)) (k : κ) (v : α) :
    List (κ × α) :=
  if m.any (fun p => p.1 = k) then
    m.map (fun p => if p.1 = k then (k, v) else p)
  else
    m ++ [(k, v)]

/-- Deletion `delete m[k]`. -/
def recordRemove {κ α : Type} [DecidableEq κ] (m : List (κ × α)) (k : κ) :
    List (κ × α) :=
  m.filter (fun p => decide (p.1 ≠ k))

/-- Own enumerable-or-not property names of `Object.prototype`, from which
a plain `\x7b\x7d` object literal inherits.  Reading any of them on an empty plain
object yields a truthy value (a function, or — for the `__proto__`
accessor — the prototype object itself). -/
def objectProtoProps : List String :=
  ["constructor", "hasOwnProperty", "isPrototypeOf", "propertyIsEnumerable",
   "toLocaleString", "toString", "valueOf", "__proto__",
   "__defineGetter__", "__defineSetter__", "__lookupGetter__", "__lookupSetter__"]

/-- State of the plain object `this.toolDefinitionsMap` (`\x7b\x7d`, line 91):
its own string-keyed properties in insertion order, plus its prototype —
`Object.prototype` initially (`proto = none`), or the validated
tool-definition object a `__proto__` assignment installed. -/
structure ToolDefRecord where
  own : List (String × ToolDef)
  proto : Option ToolDef
deriving DecidableEq, Repr

/-- Assignment `r[k] = v` on the plain object: the key `__proto__` hits the
setter inherited from `Object.prototype`, which replaces the prototype and
creates no own property; every other key becomes (or overwrites) an own
property. -/
def toolDefAssign (r : ToolDefRecord) (k : String) (v : ToolDef) : ToolDefRecord :=
  if k = "__proto__" then { r with proto := some v }
  else { r with own := recordSet r.own k v }

/-- Truthiness of the property read `r[k]` on the plain object: an own
entry is an object, hence truthy; otherwise the read walks the prototype
chain — the installed tool-definition object's fields when `__proto__` was
assigned, and `Object.prototype`'s members either way. -/
def toolDefReadTruthy (r : ToolDefRecord) (k : String) : Bool :=
  if (recordLookup r.own k).isSome then true
  else
    match r.proto with
    | some d =>
        if k = "name" then decide (d.name ≠ "")
        else if k = "description" then jsTruthy d.description
        else if k = "inputSchema" then jsTruthy d.inputSchema
        else decide (k ∈ objectProtoProps)
    | none => decide (k ∈ objectProtoProps)

/-- One step of the constructor's `options.tools.forEach` loop
(lines 94-115): validate the built definition, assign it under `impl.name`
on success (`this.toolDefinitionsMap[impl.name] = validatedTool`), log and
skip on failure. -/
def defMapStep (r : ToolDefRecord) (impl : ToolImpl) : ToolDefRecord :=
  let d := buildToolDefinition impl
  if toolSchemaParseOk d then toolDefAssign r impl.name d else r

/-- State of `this.toolDefinitionsMap` after the constructor loop. -/
def buildToolDefinitionsMap (tools : List ToolImpl) : ToolDefRecord :=
  tools.foldl defMapStep { own := [], proto := none }

/-- One step of `setupRequestHandlers`' loop populating `toolHandlerMap`
(lines 242-247): register the handler iff the property read
`this.toolDefinitionsMap[impl.name]` is truthy — an own entry or an
inherited one. -/
def handlerMapStep (defMap : ToolDefRecord)
    (hm : List (String × Handler)) (impl : ToolImpl) : List (String × Handler) :=
  if toolDefReadTruthy defMap impl.name then recordSet hm impl.name impl.handler
  else hm

/-- The `toolHandlerMap` (a real `Map`, prototype-free) built in
`setupRequestHandlers`. -/
def buildToolHandlerMap (tools : List ToolImpl) (defMap : ToolDefRecord) :
    List (String × Handler) :=
  tools.foldl (handlerMapStep defMap) []

/-! ## Endpoint normalization (constructor lines 76-81) -/

/-- The two normalization steps on the character list of the endpoint:
prefix `/` when missing (`startsWith('/') ? e : '/'+e`), then drop one
trailing `/` when present (`endsWith('/') ? slice(0,-1) : e`). -/
def normalizeChars (e : List Char) : List Char :=
  let e1 := if e.head? = some '/' then e else '/' :: e
  if e1.getLast? = some '/' then e1.dropLast else e1

/-- Value of `this.endpoint` as stored by the constructor. -/
def normalizeEndpoint (e : String) : String :=
  String.mk (normalizeChars e.data)

/-- The `MCPClient` state fixed at construction (the fields the claims
are about). -/
structure MCPClient where
  endpoint : String
  toolDefinitionsMap : ToolDefRecord
  toolHandlerMap : List (String × Handler)

/-- The `MCPClient` constructor: endpoint normalization, the tool
registration loop, then `setupRequestHandlers` building the handler map
from the same specification list. -/
def MCPClient.make (endpoint : String) (tools : List ToolImpl) : MCPClient :=
  let dm := buildToolDefinitionsMap tools
  { endpoint := normalizeEndpoint endpoint
    toolDefinitionsMap := dm
    toolHandlerMap := buildToolHandlerMap tools dm }

/-- Rendering `tool.description || ''` on a validated definition (whose description
is a string or absent). -/
def descriptionOrEmpty : JsValue → String
  | .str s => s
  | _ => ""

/-- Accessor `getTools` (lines 164-169): name and description of every
registered definition, in map order.  `Object.values` enumerates own
properties only. -/
def MCPClient.getTools (c : MCPClient) : List (String × String) :=
  c.toolDefinitionsMap.own.map (fun p => (p.2.name, descriptionOrEmpty p.2.description))

/-! ## `tools/call` dispatch (`setupRequestHandlers`, lines 249-313) -/

/-- Rendering `error.message || error` into the template literal of the
`tools/call` catch block.  A `ZodError`'s own `message` is the serialized
issue list. -/
def JsError.displayMessage : JsError → String
  | .other m => if m = "" then "Error" else m
  | .zodError issues =>
      jsonDisplayI (.arr (JsList.ofList (issues.map (fun i =>
        JsValue.mkObj [("path", .arr (JsList.ofList (i.path.map .str))),
                       ("message", .str i.message)]))))

/-- Record of one user-handler invocation: which tool ran and the header
map inside the context it was handed. -/
structure Invocation where
  toolName : String
  contextHeaders : List (String × String)
deriving DecidableEq, Repr

/-- A frame the protocol engine sends back over the session's stream. -/
inductive EngineFrame where
  | result (v : JsValue)
  | methodNotFound (method : String)
deriving DecidableEq, Repr

/-- Error response `{ content: [...], isError: true }` for `Error executing tool ...`. -/
def execErrorResponse (toolName : String) (e : JsError) : JsValue :=
  errorFlaggedResponse ("Error executing tool " ++ toolName ++ ": " ++ e.displayMessage)

/-- Normalization `{ content: result.content || [], isError: result.isError || false }`
(lines 295-298); reading a property of a `null`/`undefined` result throws,
which the surrounding catch turns into an execution-error response. -/
def normalizeCallResult (result : JsValue) : Except JsError JsValue := do
  let c ← jsMember result "content"
  let ie ← jsMember result "isError"
  pure (JsValue.mkObj [("content", jsOr c (.arr .nil)), ("isError", jsOr ie (.bool false))])

/-- The `tools/call` request handler (lines 261-312): look the tool up by
name; unknown names get an error-flagged response; otherwise read the
headers out of the ambient store (`requestStorage.getStore() || {}`), build
the context, call the handler, normalize its result, and convert anything
it throws into an error-flagged response.  Also returns the record of the
user-handler invocation, if one happened. -/
def callToolRequestHandler (toolHandlerMap : List (String × Handler))
    (store : Option (List (String × String))) (name : String)
    (args? : Option JsValue) : EngineFrame × Option Invocation :=
  match recordLookup toolHandlerMap name with
  | none =>
      (.result (errorFlaggedResponse ("Error: Unknown tool '" ++ name ++ "'")), none)
  | some handler =>
      match handler (args?.getD (.obj .nil)) (some { headers := store.getD [] }) with
      | .ok result =>
          match normalizeCallResult result with
          | .ok v =>
              (.result v, some { toolName := name, contextHeaders := store.getD [] })
          | .error e =>
              (.result (execErrorResponse name e),
               some { toolName := name, contextHeaders := store.getD [] })
      | .error e =>
          (.result (execErrorResponse name e),
           some { toolName := name, contextHeaders := store.getD [] })

/-- A posted protocol message, after the transport has parsed it. -/
inductive McpMessage where
  | toolsCall (name : String) (args? : Option JsValue)
  | toolsList
  | promptsList
deriving DecidableEq, Repr

/-- Serialize a registered definition back to its JSON object for
`tools/list`. -/
def toolDefToJs (d : ToolDef) : JsValue :=
  JsValue.mkObj [("name", .str d.name), ("description", d.description),
                 ("inputSchema", d.inputSchema)]

/-- Dispatch of one parsed message by the protocol engine into the
handlers this client registered: `tools/list` always answers from the
definitions map; `tools/call` is answered by `callToolRequestHandler` only
when at least one handler was registered (`if (toolHandlerMap.size > 0)`,
line 250) — otherwise the engine's fallback answers with a method-not-found
protocol error (modelled from the spec: the external protocol engine's
behaviour for a method with no registered handler). -/
def engineDispatch (client : MCPClient) (store : Option (List (String × String)))
    (msg : McpMessage) : EngineFrame × Option Invocation :=
  match msg with
  | .toolsCall name args? =>
      if client.toolHandlerMap.length > 0 then
        callToolRequestHandler client.toolHandlerMap store name args?
      else
        (.methodNotFound "tools/call", none)
  | .toolsList =>
      (.result (JsValue.mkObj
        [("tools", .arr (JsList.ofList (client.toolDefinitionsMap.own.map
          (fun p => toolDefToJs p.2))))]), none)
  | .promptsList =>
      (.result (JsValue.mkObj [("prompts", .arr .nil)]), none)

/-! ## Session registry and the `/sse` route (`setupRoutes`, lines 332-406) -/

/-- The server-side transport bound to one stream (`SSEServerTransport`):
its generated session identifier (opaque; modelled as a number drawn from a
never-repeating source, as the SDK's UUIDs are) and whether `close()` was
called. -/
structure Transport where
  sessionId : Nat
  closed : Bool
deriving DecidableEq, Repr

/-- The mutable per-client server state: `this.activeTransports` plus the
state of the identifier source. -/
structure SseState where
  activeTransports : List (Nat × Transport)
  nextId : Nat
deriving DecidableEq, Repr

/-- The state as of `new MCPClient(...)`: no active transports. -/
def initialSseState : SseState :=
  { activeTransports := [], nextId := 0 }

/-- What one `GET /sse` exchange leaves behind for its own connection:
the session identifier, whether the keepalive interval is scheduled, and
an error status if one was sent. -/
structure SseConn where
  sessionId : Nat
  pingActive : Bool
  errorStatus : Option Nat
deriving DecidableEq, Repr

/-- The `GET /sse` handler (lines 332-406): construct a transport (which
yields a fresh session identifier), register it, schedule the keepalive
interval, then connect the engine.  If connecting fails, the interval is
cleared, the entry deleted again, and a 500 returned when no bytes were
sent yet. -/
def sseOpen (st : SseState) (connectOk : Bool) (headersSentOnFailure : Bool) :
    SseState × SseConn :=
  let sid := st.nextId
  let transport : Transport := { sessionId := sid, closed := false }
  let registered : SseState :=
    { activeTransports := recordSet st.activeTransports sid transport
      nextId := st.nextId + 1 }
  if connectOk then
    (registered, { sessionId := sid, pingActive := true, errorStatus := none })
  else
    ({ registered with activeTransports := recordRemove registered.activeTransports sid },
     { sessionId := sid, pingActive := false
       errorStatus := if headersSentOnFailure then none else some 500 })

/-- What the `req.on('close')` callback leaves behind. -/
structure CloseEffect where
  pingCleared : Bool
  transportAfter : Transport
deriving DecidableEq, Repr

/-- The `req.on('close')` callback (lines 385-390): clear the keepalive
interval, close the transport, delete its registry entry. -/
def sseClose (st : SseState) (conn : SseConn) (transport : Transport) :
    SseState × CloseEffect :=
  ({ st with activeTransports := recordRemove st.activeTransports conn.sessionId },
   { pingCleared := true, transportAfter := { transport with closed := true } })

/-! ## The `POST /message` route (`setupRoutes`, lines 408-448) -/

/-- The `sessionId` query-parameter string, partitioned by how the plain
registry object's property read behaves on it: either it has the shape of
a server-generated identifier (an SDK UUID — the only keys the server ever
stores; modelled by the number the identifier source drew), or it is any
other string, which is never an own key of the registry. -/
inductive SessionKey where
  | generated (sid : Nat)
  | str (s : String)
deriving DecidableEq, Repr

/-- One inbound `POST /message` request: the `sessionId` query parameter
and the request's header map (names lowercased by the runtime). -/
structure PostRequest where
  sessionId? : Option SessionKey
  headers : List (String × String)

/-- How the forwarding call `transport.handlePostMessage(req, res)`
behaves for this request: parse the body and hand the message to the
engine (acknowledging with 202), or throw — before any response byte, or
after a response with some status was already sent. -/
inductive TransportBehavior where
  | dispatch (msg : McpMessage)
  | throwBefore (e : JsError)
  | throwAfterSent (e : JsError) (sentStatus : Nat)

/-- The observable outcome of `transport.handlePostMessage` run inside the
`requestStorage.run(headers, ...)` scope. -/
structure ForwardOutcome where
  resStatus : Option Nat
  thrown : Option JsError
  frame : Option EngineFrame
  invocation : Option Invocation

/-- Forwarding into the transport with the ambient store established:
dispatching reads the store the enclosing `run` installed for exactly this
logical call chain. -/
def forwardViaTransport (client : MCPClient) (store : Option (List (String × String)))
    (beh : TransportBehavior) : ForwardOutcome :=
  match beh with
  | .dispatch msg =>
      { resStatus := some 202, thrown := none
        frame := some (engineDispatch client store msg).1
        invocation := (engineDispatch client store msg).2 }
  | .throwBefore e =>
      { resStatus := none, thrown := some e, frame := none, invocation := none }
  | .throwAfterSent e s =>
      { resStatus := some s, thrown := some e, frame := none, invocation := none }

/-- The observable outcome of one `POST /message` exchange. -/
structure PostResult where
  status : Option Nat
  forwarded : Bool
  frame : Option EngineFrame
  invocation : Option Invocation

/-- The `POST /message` handler (lines 408-448): 400 when the `sessionId`
query parameter is missing or empty (`if (!sessionId)`); then the guard
`this.activeTransports[sessionId]` — 404 when the read is `undefined`, but
a name inherited from `Object.prototype` (such as `constructor`) reads
truthy, skips the guard, and the call of the undefined
`transport.handlePostMessage` throws a `TypeError` inside the try before
anything is sent, which the catch answers with 500; with a registered
transport, capture the request's headers, run the forwarding inside
`requestStorage.run(headers, ...)`, and catch anything it throws, sending
500 iff no response was sent yet.  The registry is never modified. -/
def postMessage (client : MCPClient) (st : SseState) (req : PostRequest)
    (beh : TransportBehavior) : SseState × PostResult :=
  match req.sessionId? with
  | none =>
      (st, { status := some 400, forwarded := false, frame := none, invocation := none })
  | some (.str s) =>
      if s = "" then
        (st, { status := some 400, forwarded := false, frame := none, invocation := none })
      else if s ∈ objectProtoProps then
        (st, { status := some 500, forwarded := false, frame := none, invocation := none })
      else
        (st, { status := some 404, forwarded := false, frame := none, invocation := none })
  | some (.generated sid) =>
    match recordLookup st.activeTransports sid with
    | none =>
        (st, { status := some 404, forwarded := false, frame := none, invocation := none })
    | some _transport =>
        let headers := req.headers
        let fw := forwardViaTransport client (some headers) beh
        match fw.thrown with
        | none =>
            (st, { status := fw.resStatus, forwarded := true
                   frame := fw.frame, invocation := fw.invocation })
        | some _e =>
            match fw.resStatus with
            | none =>
                (st, { status := some 500, forwarded := true
                       frame := fw.frame, invocation := fw.invocation })
            | some s =>
                (st, { status := some s, forwarded := true
                       frame := fw.frame, invocation := fw.invocation })

/-- Freshness invariant of the registry: every registered identifier was
drawn from the source earlier (the SDK never re-issues an identifier). -/
def SessionInv (st : SseState) : Prop :=
  ∀ p ∈ st.activeTransports, p.1 < st.nextId

/-- One server step: a stream opens, a stream closes, or a message is
posted.  Used to state what stays true over any subsequent activity. -/
inductive ServerStep : SseState → SseState → Prop where
  | openStream (st : SseState) (connectOk headersSentOnFailure : Bool) :
      ServerStep st (sseOpen st connectOk headersSentOnFailure).1
  | closeStream (st : SseState) (conn : SseConn) (transport : Transport) :
      ServerStep st (sseClose st conn transport).1
  | postMsg (client : MCPClient) (st : SseState) (req : PostRequest)
      (beh : TransportBehavior) :
      ServerStep st (postMessage client st req beh).1

/-- Any number of subsequent server steps. -/
def ServerReach : SseState → SseState → Prop :=
  Relation.ReflTransGen ServerStep

/-- A specification contributes the definition stored under name `n` when
its name is `n` and its built definition passes validation. -/
def defMapHit (n : String) (t : ToolImpl) : Bool :=
  decide (t.name = n) && toolSchemaParseOk (buildToolDefinition t)

/-- A specification contributes the handler stored under name `n` when its
name is `n` and the registry read on that name is truthy. -/
def handlerMapHit (n : String) (defMap : ToolDefRecord) (t : ToolImpl) : Bool :=
  decide (t.name = n) && toolDefReadTruthy defMap t.name

/-- The last specification in the list bearing name `n`. -/
def lastSpecNamed (tools : List ToolImpl) (n : String) : Option ToolImpl :=
  tools.reverse.find? (fun t => decide (t.name = n))

/-! ## Record-map lemmas -/

theorem recordLookup_cons {κ α : Type} [DecidableEq κ] (p : κ × α)
    (m : List (κ × α)) (k : κ) :
    recordLookup (p :: m) k = if p.1 = k then some p.2 else recordLookup m k := by
  by_cases h : p.1 = k <;> simp [recordLookup, List.find?_cons, h]

theorem recordLookup_append {κ α : Type} [DecidableEq κ] (m m' : List (κ × α)) (k : κ) :
    recordLookup (m ++ m') k = (recordLookup m k).or (recordLookup m' k) := by
  simp only [recordLookup, List.find?_append]
  cases List.find? (fun p => decide (p.1 = k)) m <;> simp

theorem recordLookup_overwrite_self {κ α : Type} [DecidableEq κ] (m : List (κ × α))
    (k : κ) (v : α) (hany : m.any (fun p => decide (p.1 = k)) = true) :
    recordLookup (m.map (fun p => if p.1 = k then (k, v) else p)) k = some v := by
  induction m with
  | nil => simp at hany
  | cons p m ih =>
      by_cases hp : p.1 = k
      · rw [List.map_cons, if_pos hp, recordLookup_cons, if_pos rfl]
      · rw [List.map_cons, if_neg hp, recordLookup_cons, if_neg hp]
        refine ih ?_
        rcases List.any_eq_true.mp hany with ⟨q, hq, hqk⟩
        rcases List.mem_cons.mp hq with rfl | hq'
        · exact absurd (of_decide_eq_true hqk) hp
        · exact List.any_eq_true.mpr ⟨q, hq', hqk⟩

theorem recordLookup_overwrite_ne {κ α : Type} [DecidableEq κ] (m : List (κ × α))
    (k k' : κ) (v : α) (hne : k' ≠ k) :
    recordLookup (m.map (fun p => if p.1 = k then (k, v) else p)) k' =
      recordLookup m k' := by
  induction m with
  | nil => simp
  | cons p m ih =>
      by_cases hp : p.1 = k
      · rw [List.map_cons, if_pos hp, recordLookup_cons, recordLookup_cons]
        have h1 : ¬((k, v).1 = k') := fun h => hne h.symm
        have h2 : ¬(p.1 = k') := by rw [hp]; exact fun h => hne h.symm
        rw [if_neg h1, if_neg h2, ih]
      · rw [List.map_cons, if_neg hp, recordLookup_cons, recordLookup_cons, ih]

theorem recordLookup_eq_none_of_not_any {κ α : Type} [DecidableEq κ]
    (m : List (κ × α)) (k : κ) (hany : m.any (fun p => decide (p.1 = k)) = false) :
    recordLookup m k = none := by
  have hfind : List.find? (fun p => decide (p.1 = k)) m = none := by
    rw [List.find?_eq_none]
    intro p hp hc
    have : m.any (fun p => decide (p.1 = k)) = true := List.any_eq_true.mpr ⟨p, hp, hc⟩
    rw [hany] at this
    exact Bool.false_ne_true this
  simp only [recordLookup, hfind, Option.map_none']

theorem recordLookup_set_self {κ α : Type} [DecidableEq κ] (m : List (κ × α))
    (k : κ) (v : α) : recordLookup (recordSet m k v) k = some v := by
  unfold recordSet
  by_cases hany : m.any (fun p => decide (p.1 = k)) = true
  · rw [if_pos hany]
    exact recordLookup_overwrite_self m k v hany
  · rw [if_neg hany, recordLookup_append,
      recordLookup_eq_none_of_not_any m k (Bool.eq_false_iff.mpr hany), Option.none_or,
      recordLookup_cons, if_pos rfl]

theorem recordLookup_set_ne {κ α : Type} [DecidableEq κ] (m : List (κ × α))
    (k k' : κ) (v : α) (hne : k' ≠ k) :
    recordLookup (recordSet m k v) k' = recordLookup m k' := by
  unfold recordSet
  by_cases hany : m.any (fun p => decide (p.1 = k)) = true
  · rw [if_pos hany]
    exact recordLookup_overwrite_ne m k k' v hne
  · rw [if_neg hany, recordLookup_append]
    have h1 : recordLookup [(k, v)] k' = none := by
      rw [recordLookup_cons, if_neg (fun h => hne h.symm)]
      rfl
    rw [h1, Option.or_none]

theorem recordLookup_remove_self {κ α : Type} [DecidableEq κ] (m : List (κ × α))
    (k : κ) : recordLookup (recordRemove m k) k = none := by
  have hfind : List.find? (fun p => decide (p.1 = k)) (recordRemove m k) = none := by
    rw [List.find?_eq_none]
    intro p hp
    rcases List.mem_filter.mp hp with ⟨_, hpred⟩
    simp only [decide_eq_true_eq] at hpred ⊢
    exact hpred
  simp only [recordLookup, hfind, Option.map_none']

theorem recordLookup_remove_ne {κ α : Type} [DecidableEq κ] (m : List (κ × α))
    (k k' : κ) (hne : k' ≠ k) :
    recordLookup (recordRemove m k) k' = recordLookup m k' := by
  induction m with
  | nil => rfl
  | cons p m ih =>
      by_cases hp : p.1 = k
      · have h1 : recordRemove (p :: m) k = recordRemove m k := by
          simp [recordRemove, List.filter_cons, hp]
        rw [h1, ih, recordLookup_cons, if_neg (by rw [hp]; exact fun h => hne h.symm)]
      · have h1 : recordRemove (p :: m) k = p :: recordRemove m k := by
          simp [recordRemove, List.filter_cons, hp]
        rw [h1, recordLookup_cons, recordLookup_cons, ih]

theorem recordLookup_isSome_iff_mem_keys {κ α : Type} [DecidableEq κ]
    (m : List (κ × α)) (k : κ) :
    (recordLookup m k).isSome = true ↔ k ∈ m.map Prod.fst := by
  have hmap : ∀ (o : Option (κ × α)), (o.map (fun x => x.2)).isSome = o.isSome := by
    intro o; cases o <;> rfl
  simp only [recordLookup, hmap, List.find?_isSome, List.mem_map, decide_eq_true_eq]

theorem mem_recordSet {κ α : Type} [DecidableEq κ] (m : List (κ × α)) (k : κ)
    (v : α) (q : κ × α) (hq : q ∈ recordSet m k v) : q ∈ m ∨ q = (k, v) := by
  unfold recordSet at hq
  by_cases hany : m.any (fun p => decide (p.1 = k)) = true
  · rw [if_pos hany] at hq
    rcases List.mem_map.mp hq with ⟨p, hp, hfq⟩
    by_cases hpk : p.1 = k
    · right
      rw [if_pos hpk] at hfq
      exact hfq.symm
    · left
      rw [if_neg hpk] at hfq
      exact hfq ▸ hp
  · rw [if_neg hany] at hq
    rcases List.mem_append.mp hq with h | h
    · exact Or.inl h
    · exact Or.inr (List.mem_singleton.mp h)

theorem keys_recordSet_nodup {κ α : Type} [DecidableEq κ] (m : List (κ × α))
    (k : κ) (v : α) (h : (m.map Prod.fst).Nodup) :
    ((recordSet m k v).map Prod.fst).Nodup := by
  unfold recordSet
  by_cases hany : m.any (fun p => decide (p.1 = k)) = true
  · rw [if_pos hany, List.map_map]
    have hpoint : ∀ p ∈ m, (Prod.fst ∘ fun p => if p.1 = k then (k, v) else p) p = p.1 := by
      intro p _
      by_cases hpk : p.1 = k
      · simp [hpk]
      · simp [hpk]
    rw [List.map_congr_left hpoint]
    exact h
  · rw [if_neg hany, List.map_append]
    rw [List.nodup_append]
    refine ⟨h, List.nodup_singleton k, ?_⟩
    intro x hx hx'
    rcases List.mem_singleton.mp hx' with rfl
    rcases List.mem_map.mp hx with ⟨p, hp, hpk⟩
    exact hany (List.any_eq_true.mpr ⟨p, hp, decide_eq_true hpk⟩)

/-! ## Characterization of the registration maps -/

theorem lookup_foldl_defMapStep (tools : List ToolImpl) (r : ToolDefRecord)
    (n : String) (hn : n ≠ "__proto__") :
    recordLookup (tools.foldl defMapStep r).own n =
      match tools.reverse.find? (defMapHit n) with
      | some t => some (buildToolDefinition t)
      | none => recordLookup r.own n := by
  induction tools generalizing r with
  | nil => rfl
  | cons t ts ih =>
      rw [List.foldl_cons, ih (defMapStep r t), List.reverse_cons, List.find?_append]
      cases hfind : ts.reverse.find? (defMapHit n) with
      | some u => rfl
      | none =>
          simp only [Option.none_or]
          cases hhit : List.find? (defMapHit n) [t] with
          | some u =>
              have h1 : defMapHit n t = true ∧ u = t := by
                rw [List.find?_cons] at hhit
                cases hd : defMapHit n t with
                | true => rw [hd] at hhit; exact ⟨rfl, (Option.some_inj.mp hhit).symm⟩
                | false => rw [hd] at hhit; exact absurd hhit (by simp)
              rcases h1 with ⟨hd, rfl⟩
              simp only [defMapHit, Bool.and_eq_true, decide_eq_true_eq] at hd
              rcases hd with ⟨hname, hok⟩
              simp only [defMapStep, hok, if_true, toolDefAssign, hname]
              rw [if_neg hn]
              exact recordLookup_set_self r.own n (buildToolDefinition u)
          | none =>
              have hd : defMapHit n t = false := by
                rw [List.find?_cons] at hhit
                cases hd : defMapHit n t with
                | true => rw [hd] at hhit; exact absurd hhit (by simp)
                | false => rfl
              unfold defMapStep
              by_cases hok : toolSchemaParseOk (buildToolDefinition t) = true
              · rw [if_pos hok]
                have hname : ¬(t.name = n) := by
                  intro hc
                  have : defMapHit n t = true := by
                    unfold defMapHit
                    rw [hok, decide_eq_true hc]
                    rfl
                  rw [hd] at this
                  exact Bool.false_ne_true this
                unfold toolDefAssign
                by_cases hpt : t.name = "__proto__"
                · rw [if_pos hpt]
                · rw [if_neg hpt]
                  exact recordLookup_set_ne r.own t.name n (buildToolDefinition t)
                    (fun h => hname h.symm)
              · rw [if_neg hok]

theorem lookup_foldl_handlerMapStep (tools : List ToolImpl)
    (dm : ToolDefRecord) (hm : List (String × Handler)) (n : String) :
    recordLookup (tools.foldl (handlerMapStep dm) hm) n =
      match tools.reverse.find? (handlerMapHit n dm) with
      | some t => some t.handler
      | none => recordLookup hm n := by
  induction tools generalizing hm with
  | nil => rfl
  | cons t ts ih =>
      rw [List.foldl_cons, ih (handlerMapStep dm hm t), List.reverse_cons, List.find?_append]
      cases hfind : ts.reverse.find? (handlerMapHit n dm) with
      | some u => rfl
      | none =>
          simp only [Option.none_or]
          cases hhit : List.find? (handlerMapHit n dm) [t] with
          | some u =>
              have h1 : handlerMapHit n dm t = true ∧ u = t := by
                rw [List.find?_cons] at hhit
                cases hd : handlerMapHit n dm t with
                | true => rw [hd] at hhit; exact ⟨rfl, (Option.some_inj.mp hhit).symm⟩
                | false => rw [hd] at hhit; exact absurd hhit (by simp)
              rcases h1 with ⟨hd, rfl⟩
              simp only [handlerMapHit, Bool.and_eq_true, decide_eq_true_eq] at hd
              rcases hd with ⟨hname, htruthy⟩
              simp only [handlerMapStep, htruthy, if_true]
              rw [← hname, recordLookup_set_self]
          | none =>
              have hd : handlerMapHit n dm t = false := by
                rw [List.find?_cons] at hhit
                cases hd : handlerMapHit n dm t with
                | true => rw [hd] at hhit; exact absurd hhit (by simp)
                | false => rfl
              unfold handlerMapStep
              by_cases htruthy : toolDefReadTruthy dm t.name = true
              · rw [if_pos htruthy]
                have hname : ¬(t.name = n) := by
                  intro hc
                  have : handlerMapHit n dm t = true := by
                    unfold handlerMapHit
                    rw [htruthy, decide_eq_true hc]
                    rfl
                  rw [hd] at this
                  exact Bool.false_ne_true this
                exact recordLookup_set_ne hm t.name n t.handler (fun h => hname h.symm)
              · rw [if_neg htruthy]

theorem nodup_keys_foldl_defMapStep (tools : List ToolImpl)
    (r : ToolDefRecord) (h : (r.own.map Prod.fst).Nodup) :
    ((tools.foldl defMapStep r).own.map Prod.fst).Nodup := by
  induction tools generalizing r with
  | nil => exact h
  | cons t ts ih =>
      rw [List.foldl_cons]
      refine ih (defMapStep r t) ?_
      unfold defMapStep toolDefAssign
      by_cases hok : toolSchemaParseOk (buildToolDefinition t) = true
      · rw [if_pos hok]
        by_cases hpt : t.name = "__proto__"
        · rw [if_pos hpt]
          exact h
        · rw [if_neg hpt]
          exact keys_recordSet_nodup r.own t.name (buildToolDefinition t) h
      · rw [if_neg hok]
        exact h

theorem name_eq_key_foldl_defMapStep (tools : List ToolImpl)
    (r : ToolDefRecord) (h : ∀ p ∈ r.own, (p.2 : ToolDef).name = p.1) :
    ∀ p ∈ (tools.foldl defMapStep r).own, (p.2 : ToolDef).name = p.1 := by
  induction tools generalizing r with
  | nil => exact h
  | cons t ts ih =>
      rw [List.foldl_cons]
      refine ih (defMapStep r t) ?_
      intro p hp
      unfold defMapStep toolDefAssign at hp
      by_cases hok : toolSchemaParseOk (buildToolDefinition t) = true
      · rw [if_pos hok] at hp
        by_cases hpt : t.name = "__proto__"
        · rw [if_pos hpt] at hp
          exact h p hp
        · rw [if_neg hpt] at hp
          rcases mem_recordSet r.own t.name (buildToolDefinition t) p hp with hin | rfl
          · exact h p hin
          · rfl
      · rw [if_neg hok] at hp
        exact h p hp

theorem proto_foldl_defMapStep (tools : List ToolImpl) (r : ToolDefRecord)
    (hno : ∀ t ∈ tools, t.name = "__proto__" →
      toolSchemaParseOk (buildToolDefinition t) = false) :
    (tools.foldl defMapStep r).proto = r.proto := by
  induction tools generalizing r with
  | nil => rfl
  | cons t ts ih =>
      rw [List.foldl_cons,
        ih (defMapStep r t) (fun u hu => hno u (List.mem_cons_of_mem t hu))]
      unfold defMapStep toolDefAssign
      by_cases hok : toolSchemaParseOk (buildToolDefinition t) = true
      · rw [if_pos hok]
        by_cases hpt : t.name = "__proto__"
        · rw [hno t (List.mem_cons_self t ts) hpt] at hok
          exact absurd hok (by simp)
        · rw [if_neg hpt]
      · rw [if_neg hok]

theorem defMap_lookup_isSome_iff (tools : List ToolImpl) (n : String)
    (hn : n ≠ "__proto__") :
    (recordLookup (buildToolDefinitionsMap tools).own n).isSome = true ↔
      ∃ t ∈ tools, t.name = n ∧ toolSchemaParseOk (buildToolDefinition t) = true := by
  unfold buildToolDefinitionsMap
  rw [lookup_foldl_defMapStep tools { own := [], proto := none } n hn]
  cases hfind : tools.reverse.find? (defMapHit n) with
  | some u =>
      simp only [Option.isSome_some, true_iff]
      refine ⟨u, List.mem_reverse.mp (List.mem_of_find?_eq_some hfind), ?_⟩
      have h1 := List.find?_some hfind
      simp only [defMapHit, Bool.and_eq_true, decide_eq_true_eq] at h1
      exact h1
  | none =>
      simp only [recordLookup, List.find?_nil, Option.map_none', Option.isSome_none]
      constructor
      · intro hc
        exact absurd hc Bool.false_ne_true
      · rintro ⟨t, ht, hname, hok⟩
        have : (tools.reverse.find? (defMapHit n)).isSome = true := by
          rw [List.find?_isSome]
          refine ⟨t, List.mem_reverse.mpr ht, ?_⟩
          unfold defMapHit
          rw [hok, decide_eq_true hname]
          rfl
        rw [hfind] at this
        exact absurd this (by simp)

theorem filter_eq_singleton_of_lookup {α : Type} [DecidableEq α] :
    ∀ (m : List (String × α)) (k : String) (v : α),
    (m.map Prod.fst).Nodup → recordLookup m k = some v →
    m.filter (fun p => decide (p.1 = k)) = [(k, v)] := by
  intro m
  induction m with
  | nil => intro k v _ hl; exact absurd hl (by simp [recordLookup])
  | cons p m ih =>
      intro k v hnodup hl
      rw [recordLookup_cons] at hl
      rw [List.map_cons, List.nodup_cons] at hnodup
      by_cases hp : p.1 = k
      · rw [if_pos hp] at hl
        have hpv : p = (k, v) := Prod.ext hp (Option.some_inj.mp hl)
        rw [List.filter_cons, if_pos (by simp [hp])]
        rw [hpv]
        have hnil : m.filter (fun q => decide (q.1 = k)) = [] := by
          rw [List.filter_eq_nil_iff]
          intro q hq hqk
          refine hnodup.1 ?_
          rw [hp, ← of_decide_eq_true hqk]
          exact List.mem_map.mpr ⟨q, hq, rfl⟩
        rw [hnil]
      · rw [if_neg hp] at hl
        rw [List.filter_cons, if_neg (by simp [hp])]
        exact ih k v hnodup.2 hl

/-! ## Session-registry lemmas -/

theorem postMessage_fst (client : MCPClient) (st : SseState) (req : PostRequest)
    (beh : TransportBehavior) : (postMessage client st req beh).1 = st := by
  simp only [postMessage]
  split
  · rfl
  · split
    · rfl
    · split
      · rfl
      · rfl
  · split
    · rfl
    · split
      · rfl
      · split <;> rfl

theorem serverStep_keeps_stale (st st' : SseState) (h : ServerStep st st') (sid : Nat)
    (hlt : sid < st.nextId) (hnone : recordLookup st.activeTransports sid = none) :
    sid < st'.nextId ∧ recordLookup st'.activeTransports sid = none := by
  have hne : sid ≠ st.nextId := Nat.ne_of_lt hlt
  cases h with
  | openStream st2 ok hs =>
      cases ok with
      | true =>
          refine ⟨Nat.lt_succ_of_lt hlt, ?_⟩
          show recordLookup (recordSet st.activeTransports st.nextId
            { sessionId := st.nextId, closed := false }) sid = none
          rw [recordLookup_set_ne _ _ _ _ hne]
          exact hnone
      | false =>
          refine ⟨Nat.lt_succ_of_lt hlt, ?_⟩
          show recordLookup (recordRemove (recordSet st.activeTransports st.nextId
            { sessionId := st.nextId, closed := false }) st.nextId) sid = none
          rw [recordLookup_remove_ne _ _ _ hne, recordLookup_set_ne _ _ _ _ hne]
          exact hnone
  | closeStream st2 conn transport =>
      refine ⟨hlt, ?_⟩
      show recordLookup (recordRemove st.activeTransports conn.sessionId) sid = none
      by_cases hc : sid = conn.sessionId
      · rw [hc]
        exact recordLookup_remove_self _ _
      · rw [recordLookup_remove_ne _ _ _ hc]
        exact hnone
  | postMsg client st2 req beh =>
      rw [postMessage_fst]
      exact ⟨hlt, hnone⟩

theorem serverReach_keeps_stale (st st' : SseState) (h : ServerReach st st') (sid : Nat)
    (hlt : sid < st.nextId) (hnone : recordLookup st.activeTransports sid = none) :
    sid < st'.nextId ∧ recordLookup st'.activeTransports sid = none := by
  induction h with
  | refl => exact ⟨hlt, hnone⟩
  | tail hab hbc ih => exact serverStep_keeps_stale _ _ hbc sid ih.1 ih.2

theorem sessionInv_lookup_fresh (st : SseState) (hInv : SessionInv st) :
    recordLookup st.activeTransports st.nextId = none := by
  cases hlk : recordLookup st.activeTransports st.nextId with
  | none => rfl
  | some t =>
      have hsome : (recordLookup st.activeTransports st.nextId).isSome = true := by
        rw [hlk]; rfl
      rw [recordLookup_isSome_iff_mem_keys] at hsome
      rcases List.mem_map.mp hsome with ⟨p, hp, hpk⟩
      have := hInv p hp
      rw [hpk] at this
      exact absurd this (Nat.lt_irrefl _)

/-! ## Endpoint-normalization lemma -/

theorem normalizeChars_spec (l : List Char) (h1 : l ≠ []) (h2 : l ≠ ['/'])
    (h3 : ¬ ['/', '/'] <:+ l) :
    (normalizeChars l).head? = some '/' ∧ (normalizeChars l).getLast? ≠ some '/' := by
  simp only [normalizeChars]
  set e1 := if l.head? = some '/' then l else '/' :: l with he1
  have h1' : e1.head? = some '/' := by
    by_cases hh : l.head? = some '/'
    · rw [he1, if_pos hh]; exact hh
    · rw [he1, if_neg hh]; rfl
  have h2' : e1 ≠ ['/'] := by
    by_cases hh : l.head? = some '/'
    · rw [he1, if_pos hh]; exact h2
    · rw [he1, if_neg hh]
      intro hc
      injection hc with _ htl
      exact h1 htl
  have h3' : ¬ ['/', '/'] <:+ e1 := by
    by_cases hh : l.head? = some '/'
    · rw [he1, if_pos hh]; exact h3
    · rw [he1, if_neg hh]
      intro hc
      rcases List.suffix_cons_iff.mp hc with heq | hsuf
      · injection heq with _ htl
        exact h2 htl.symm
      · exact h3 hsuf
  by_cases hl : e1.getLast? = some '/'
  · rw [if_pos hl]
    rcases List.getLast?_eq_some_iff.mp hl with ⟨X, hX⟩
    have hXne : X ≠ [] := by
      intro hc
      rw [hc, List.nil_append] at hX
      exact h2' hX
    rw [hX, List.dropLast_concat]
    constructor
    · rw [hX, List.head?_append_of_ne_nil X hXne] at h1'
      exact h1'
    · intro hc
      rcases List.getLast?_eq_some_iff.mp hc with ⟨Y, hY⟩
      refine h3' ?_
      refine ⟨Y, ?_⟩
      rw [hX, hY, List.append_assoc]
      rfl
  · rw [if_neg hl]
    exact ⟨h1', hl⟩

/-! ## Claim theorems -/

/-- C4: for every input payload that fails validation against the tool's
declared input schema, invoking the schema-wrapped tool returns a normal
response with `isError: true` whose text names each failing field path with
its violation message, joined by a separator (`formatIssues`); the user
handler is never called for such a payload (the outcome is the same for
every handler). -/
theorem c4_input_validation_rejects (schemaParse : ZodParse)
    (outputSchemaParse : Option ZodParse) (handler handler' : Handler)
    (args : JsValue) (context : Option ToolContext) (issues : List ZodIssue)
    (hfail : schemaParse args = .error issues) :
    mcpToolHandler schemaParse outputSchemaParse handler args context =
      .ok (errorFlaggedResponse ("Input validation error: " ++ formatIssues issues)) ∧
    mcpToolHandler schemaParse outputSchemaParse handler args context =
      mcpToolHandler schemaParse outputSchemaParse handler' args context := by
  have hbody : ∀ (h : Handler),
      mcpToolTryBody schemaParse outputSchemaParse h args context =
        .error (.zodError issues) := by
    intro h
    simp only [mcpToolTryBody, hfail]
  constructor
  · simp only [mcpToolHandler, hbody handler, inputValidationErrorResponse]
  · simp only [mcpToolHandler, hbody handler, hbody handler']

/-- C4 witness: a concrete failing payload produces the error response and
never reaches the handler. -/
theorem c4_witness :
    mcpToolHandler (fun _ => .error [⟨["location"], "Required"⟩]) none
      (fun _ _ => .ok (.str "sunny")) (.obj .nil) none =
      .ok (errorFlaggedResponse "Input validation error: location: Required") := by
  have h := c4_input_validation_rejects (fun _ => .error [⟨["location"], "Required"⟩])
    none (fun _ _ => .ok (.str "sunny")) (fun _ _ => .ok (.str "rainy")) (.obj .nil) none
    [⟨["location"], "Required"⟩] rfl
  exact h.1.trans (congrArg Except.ok (by decide))

/-- C5: on valid input, when an output schema is declared a failing return
value yields an `isError: true` response, and a passing value is formatted
by type: an already-content-carrying value passes through unchanged, a
string becomes one text block, `null`/`undefined` an empty text block, an
object or array its indented JSON serialization in a text block, any other
scalar its string form in a text block; with no output schema declared, a
non-string return yields an error-flagged response reporting the value. -/
theorem c5_output_validation_and_formatting (schemaParse : ZodParse)
    (handler : Handler) (args : JsValue) (context : Option ToolContext)
    (v result : JsValue)
    (hok : schemaParse args = .ok v) (hret : handler v context = .ok result) :
    (∀ (oparse : ZodParse) issues, oparse result = .error issues →
      mcpToolHandler schemaParse (some oparse) handler args context =
        .ok (errorFlaggedResponse ("Output validation error: " ++ formatIssues issues))) ∧
    (∀ (oparse : ZodParse) w, oparse result = .ok w →
      mcpToolHandler schemaParse (some oparse) handler args context =
        .ok (formatOutput result)) ∧
    (isMcpShaped result = true → formatOutput result = result) ∧
    (∀ s, result = .str s → formatOutput result = contentResponse [textContent s]) ∧
    ((result = .null ∨ result = .undefined) →
      formatOutput result = contentResponse [textContent ""]) ∧
    (∀ fs, result = .obj fs → isMcpShaped result = false →
      formatOutput result = contentResponse [textContent (jsonDisplayI result)]) ∧
    (∀ es, result = .arr es → isMcpShaped result = false →
      formatOutput result = contentResponse [textContent (jsonDisplayI result)]) ∧
    (∀ n, result = .num n →
      formatOutput result = contentResponse [textContent (toString n)]) ∧
    (∀ b, result = .bool b →
      formatOutput result = contentResponse [textContent (if b then "true" else "false")]) ∧
    (jsTypeof result ≠ "string" →
      mcpToolHandler schemaParse none handler args context =
        .ok (errorFlaggedResponse
          ("Handler returned non-string value, but no output schema was provided. Value: "
            ++ jsonDisplayC result))) := by
  refine ⟨?_, ?_, ?_, ?_, ?_, ?_, ?_, ?_, ?_, ?_⟩
  · intro oparse issues hiss
    simp only [mcpToolHandler, mcpToolTryBody, hok, hret, hiss, outputValidationErrorResponse]
  · intro oparse w hw
    simp only [mcpToolHandler, mcpToolTryBody, hok, hret, hw]
  · intro hshaped
    simp only [formatOutput, hshaped, if_true]
  · rintro s rfl
    have hshaped : isMcpShaped (.str s) = false := by
      simp [isMcpShaped, jsGetD, jsIsArray]
    simp only [formatOutput, hshaped, Bool.false_eq_true, if_false]
  · rintro (rfl | rfl) <;> rfl
  · rintro fs rfl hshaped
    simp only [formatOutput, hshaped, Bool.false_eq_true, if_false]
  · rintro es rfl hshaped
    simp only [formatOutput, hshaped, Bool.false_eq_true, if_false]
  · rintro n rfl
    have hshaped : isMcpShaped (.num n) = false := by
      simp [isMcpShaped, jsGetD, jsIsArray]
    simp only [formatOutput, hshaped, Bool.false_eq_true, if_false]
  · rintro b rfl
    have hshaped : isMcpShaped (.bool b) = false := by
      simp [isMcpShaped, jsGetD, jsIsArray]
    simp only [formatOutput, hshaped, Bool.false_eq_true, if_false]
  · intro hnstr
    simp only [mcpToolHandler, mcpToolTryBody, hok, hret, if_neg hnstr, nonStringResponse]

/-- C5 witness: a concrete handler returning an object that passes its
output schema, formatted as indented JSON. -/
theorem c5_witness :
    mcpToolHandler (fun a => .ok a) (some (fun _ => .ok .null))
      (fun _ _ => .ok (JsValue.mkObj [("temperature", .num 72)])) (.obj .nil) none =
      .ok (contentResponse [textContent "\x7b\n  \"temperature\": 72\n\x7d"]) := by
  have h := c5_output_validation_and_formatting (fun a => .ok a)
    (fun _ _ => .ok (JsValue.mkObj [("temperature", .num 72)])) (.obj .nil) none
    (.obj .nil) (JsValue.mkObj [("temperature", .num 72)]) rfl rfl
  have h2 := h.2.1 (fun _ => .ok .null) .null rfl
  have h3 := h.2.2.2.2.2.1 (JsFields.ofList [("temperature", .num 72)]) rfl (by decide)
  rw [h2, h3]
  exact congrArg _ (by decide)

/-- C6: a failure thrown by the user handler that is not a schema-validation
failure propagates out of the validating wrapper uncaught; at the
`tools/call` invocation boundary any thrown failure is converted into an
`isError: true` response carrying the failure's message; and a failing tool
call never terminates the session or the process (the registry is untouched
and the post is still acknowledged). -/
theorem c6_execution_error_propagation :
    (∀ (sp : ZodParse) (osp : Option ZodParse) (h : Handler) (args : JsValue)
       (ctx : Option ToolContext) (v : JsValue) (m : String),
       sp args = .ok v → h v ctx = .error (.other m) →
       mcpToolHandler sp osp h args ctx = .error (.other m)) ∧
    (∀ (hm : List (String × Handler)) (store : Option (List (String × String)))
       (name : String) (args? : Option JsValue) (handler : Handler) (e : JsError),
       recordLookup hm name = some handler →
       handler (args?.getD (.obj .nil)) (some { headers := store.getD [] }) = .error e →
       callToolRequestHandler hm store name args? =
         (.result (errorFlaggedResponse
            ("Error executing tool " ++ name ++ ": " ++ e.displayMessage)),
          some { toolName := name, contextHeaders := store.getD [] })) ∧
    (∀ (client : MCPClient) (st : SseState) (req : PostRequest)
       (beh : TransportBehavior), (postMessage client st req beh).1 = st) ∧
    (∀ (client : MCPClient) (st : SseState) (req : PostRequest) (msg : McpMessage)
       (sid : Nat), req.sessionId? = some (.generated sid) →
       (recordLookup st.activeTransports sid).isSome = true →
       (postMessage client st req (.dispatch msg)).2.status = some 202) := by
  refine ⟨?_, ?_, ?_, ?_⟩
  · intro sp osp h args ctx v m h1 h2
    simp only [mcpToolHandler, mcpToolTryBody, h1, h2]
  · intro hm store name args? handler e h1 h2
    simp only [callToolRequestHandler, h1, h2, execErrorResponse]
  · intro client st req beh
    exact postMessage_fst client st req beh
  · intro client st req msg sid h1 h2
    rcases Option.isSome_iff_exists.mp h2 with ⟨t, ht⟩
    simp only [postMessage, h1, ht, forwardViaTransport]

/-- Whatever the `tools/call` handler records, the context it hands the
user handler carries exactly the ambient store (or `{}` when none). -/
theorem callTool_invocation_context (hm : List (String × Handler))
    (store : Option (List (String × String))) (name : String)
    (args? : Option JsValue) (inv : Invocation)
    (h : (callToolRequestHandler hm store name args?).2 = some inv) :
    inv.contextHeaders = store.getD [] := by
  unfold callToolRequestHandler at h
  cases hlk : recordLookup hm name with
  | none =>
      rw [hlk] at h
      exact Option.noConfusion h
  | some handler =>
      simp only [hlk] at h
      cases hh : handler (args?.getD (.obj .nil)) (some { headers := store.getD [] }) with
      | ok result =>
          simp only [hh] at h
          cases hn : normalizeCallResult result with
          | ok v =>
              simp only [hn] at h
              cases h
              rfl
          | error e =>
              simp only [hn] at h
              cases h
              rfl
      | error e =>
          simp only [hh] at h
          cases h
          rfl

/-- Same fact one level up, at the engine dispatch. -/
theorem engineDispatch_invocation_context (client : MCPClient)
    (store : Option (List (String × String))) (msg : McpMessage) (inv : Invocation)
    (h : (engineDispatch client store msg).2 = some inv) :
    inv.contextHeaders = store.getD [] := by
  cases msg with
  | toolsCall name args? =>
      simp only [engineDispatch] at h
      by_cases hlen : client.toolHandlerMap.length > 0
      · rw [if_pos hlen] at h
        exact callTool_invocation_context _ _ _ _ _ h
      · rw [if_neg hlen] at h
        exact Option.noConfusion h
  | toolsList => exact Option.noConfusion h
  | promptsList => exact Option.noConfusion h

/-- Same fact at the `POST /message` route: the store is that request's own
header map. -/
theorem postMessage_invocation_context (client : MCPClient) (st : SseState)
    (req : PostRequest) (beh : TransportBehavior) (inv : Invocation)
    (h : (postMessage client st req beh).2.invocation = some inv) :
    inv.contextHeaders = req.headers := by
  cases hsid : req.sessionId? with
  | none =>
      simp only [postMessage, hsid] at h
      exact Option.noConfusion h
  | some key =>
      cases key with
      | str s =>
          simp only [postMessage, hsid] at h
          by_cases he : s = ""
          · rw [if_pos he] at h
            exact Option.noConfusion h
          · rw [if_neg he] at h
            by_cases hp : s ∈ objectProtoProps
            · rw [if_pos hp] at h
              exact Option.noConfusion h
            · rw [if_neg hp] at h
              exact Option.noConfusion h
      | generated sid =>
          cases hlk : recordLookup st.activeTransports sid with
          | none =>
              simp only [postMessage, hsid, hlk] at h
              exact Option.noConfusion h
          | some t =>
              cases beh with
              | dispatch msg =>
                  simp only [postMessage, hsid, hlk, forwardViaTransport] at h
                  exact engineDispatch_invocation_context client (some req.headers) msg inv h
              | throwBefore e =>
                  simp only [postMessage, hsid, hlk, forwardViaTransport] at h
                  exact Option.noConfusion h
              | throwAfterSent e s =>
                  simp only [postMessage, hsid, hlk, forwardViaTransport] at h
                  exact Option.noConfusion h

/-- C1: the context passed to the user handler during processing of a
posted message contains exactly that HTTP POST request's header map (and an
empty map when no request scope is active); two posts processed
concurrently, on the same or different sessions, each see only their own
request's headers. -/
theorem c1_context_propagation :
    (∀ (client : MCPClient) (st : SseState) (req : PostRequest)
       (beh : TransportBehavior) (inv : Invocation),
       (postMessage client st req beh).2.invocation = some inv →
       inv.contextHeaders = req.headers) ∧
    (∀ (client : MCPClient) (msg : McpMessage) (inv : Invocation),
       (engineDispatch client none msg).2 = some inv →
       inv.contextHeaders = []) ∧
    (∀ (client : MCPClient) (st : SseState) (r1 r2 : PostRequest)
       (b1 b2 : TransportBehavior) (i1 i2 : Invocation),
       (postMessage client st r1 b1).2.invocation = some i1 →
       (postMessage client (postMessage client st r1 b1).1 r2 b2).2.invocation = some i2 →
       i1.contextHeaders = r1.headers ∧ i2.contextHeaders = r2.headers) := by
  refine ⟨?_, ?_, ?_⟩
  · intro client st req beh inv h
    exact postMessage_invocation_context client st req beh inv h
  · intro client msg inv h
    simpa using engineDispatch_invocation_context client none msg inv h
  · intro client st r1 r2 b1 b2 i1 i2 h1 h2
    exact ⟨postMessage_invocation_context client st r1 b1 i1 h1,
      postMessage_invocation_context client _ r2 b2 i2 h2⟩

/-- C1 witness: a concrete posted message whose triggered invocation sees
exactly that request's headers. -/
theorem c1_witness :
    ((postMessage
        (MCPClient.make "/mcp"
          [⟨"get_weather", .str "d", .undefined, fun _ _ => .ok (.str "72F")⟩])
        (sseOpen initialSseState true false).1
        { sessionId? := some (.generated 0), headers := [("authorization", "b")] }
        (.dispatch (.toolsCall "get_weather" none))).2.invocation.map
          (fun i => i.contextHeaders)) = some [("authorization", "b")] := by
  have hinv : (postMessage
      (MCPClient.make "/mcp"
        [⟨"get_weather", .str "d", .undefined, fun _ _ => .ok (.str "72F")⟩])
      (sseOpen initialSseState true false).1
      { sessionId? := some (.generated 0), headers := [("authorization", "b")] }
      (.dispatch (.toolsCall "get_weather" none))).2.invocation =
      some ⟨"get_weather", [("authorization", "b")]⟩ := rfl
  have h := c1_context_propagation.1 _ _ _ _ _ hinv
  rw [hinv]
  exact congrArg some h

/-- C3 (amended): a post whose `sessionId` is missing or empty gets 400;
one whose identifier is neither registered nor the name of a property
inherited from `Object.prototype` gets 404 with the engine never invoked;
one whose identifier names an inherited property (such as `constructor`)
skips the not-found guard — the attempt to call the undefined transport
method throws and is answered with 500, the engine never invoked; if the
forwarding throws before any response is sent the status is 500; and in
every case some response status is produced — no exception escapes to the
framework's default handler. -/
theorem c3_post_statuses :
    (∀ (client : MCPClient) (st : SseState) (req : PostRequest)
       (beh : TransportBehavior), req.sessionId? = none →
       (postMessage client st req beh).2.status = some 400 ∧
       (postMessage client st req beh).2.forwarded = false) ∧
    (∀ (client : MCPClient) (st : SseState) (req : PostRequest)
       (beh : TransportBehavior), req.sessionId? = some (.str "") →
       (postMessage client st req beh).2.status = some 400 ∧
       (postMessage client st req beh).2.forwarded = false) ∧
    (∀ (client : MCPClient) (st : SseState) (req : PostRequest)
       (beh : TransportBehavior) (sid : Nat), req.sessionId? = some (.generated sid) →
       recordLookup st.activeTransports sid = none →
       (postMessage client st req beh).2.status = some 404 ∧
       (postMessage client st req beh).2.forwarded = false) ∧
    (∀ (client : MCPClient) (st : SseState) (req : PostRequest)
       (beh : TransportBehavior) (s : String), req.sessionId? = some (.str s) →
       s ≠ "" → s ∉ objectProtoProps →
       (postMessage client st req beh).2.status = some 404 ∧
       (postMessage client st req beh).2.forwarded = false) ∧
    (∀ (client : MCPClient) (st : SseState) (req : PostRequest)
       (beh : TransportBehavior) (s : String), req.sessionId? = some (.str s) →
       s ∈ objectProtoProps →
       (postMessage client st req beh).2.status = some 500 ∧
       (postMessage client st req beh).2.forwarded = false) ∧
    (∀ (client : MCPClient) (st : SseState) (req : PostRequest) (sid : Nat)
       (e : JsError), req.sessionId? = some (.generated sid) →
       (recordLookup st.activeTransports sid).isSome = true →
       (postMessage client st req (.throwBefore e)).2.status = some 500) ∧
    (∀ (client : MCPClient) (st : SseState) (req : PostRequest)
       (beh : TransportBehavior),
       ((postMessage client st req beh).2.status).isSome = true) := by
  refine ⟨?_, ?_, ?_, ?_, ?_, ?_, ?_⟩
  · intro client st req beh h
    simp [postMessage, h]
  · intro client st req beh h
    simp [postMessage, h]
  · intro client st req beh sid h1 h2
    simp [postMessage, h1, h2]
  · intro client st req beh s h1 hne hnp
    simp [postMessage, h1, hne, hnp]
  · intro client st req beh s h1 hp
    have hne : s ≠ "" := by
      intro hc
      rw [hc] at hp
      exact absurd hp (by decide)
    simp [postMessage, h1, hne, hp]
  · intro client st req sid e h1 h2
    rcases Option.isSome_iff_exists.mp h2 with ⟨t, ht⟩
    simp [postMessage, h1, ht, forwardViaTransport]
  · intro client st req beh
    cases hsid : req.sessionId? with
    | none => simp [postMessage, hsid]
    | some key =>
        cases key with
        | str s =>
            by_cases he : s = ""
            · simp [postMessage, hsid, he]
            · by_cases hp : s ∈ objectProtoProps
              · simp [postMessage, hsid, he, hp]
              · simp [postMessage, hsid, he, hp]
        | generated sid =>
            cases hlk : recordLookup st.activeTransports sid with
            | none => simp [postMessage, hsid, hlk]
            | some t =>
                cases beh with
                | dispatch msg => simp [postMessage, hsid, hlk, forwardViaTransport]
                | throwBefore e => simp [postMessage, hsid, hlk, forwardViaTransport]
                | throwAfterSent e st2 => simp [postMessage, hsid, hlk, forwardViaTransport]

/-- C3 witness: concrete posts exercising the 400, 404 and 500 branches of
the amended claim. -/
theorem c3_witness :
    (postMessage (MCPClient.make "/mcp" []) initialSseState
      { sessionId? := none, headers := [] } (.throwBefore (.other "x"))).2.status =
      some 400 ∧
    (postMessage (MCPClient.make "/mcp" []) initialSseState
      { sessionId? := some (.generated 7), headers := [] }
      (.dispatch .toolsList)).2.status = some 404 ∧
    (postMessage (MCPClient.make "/mcp" []) initialSseState
      { sessionId? := some (.str "zzz"), headers := [] }
      (.dispatch .toolsList)).2.status = some 404 ∧
    (postMessage (MCPClient.make "/mcp" []) (sseOpen initialSseState true false).1
      { sessionId? := some (.generated 0), headers := [] }
      (.throwBefore (.other "x"))).2.status = some 500 := by
  refine ⟨?_, ?_, ?_, ?_⟩
  · exact (c3_post_statuses.1 _ _ _ _ rfl).1
  · exact (c3_post_statuses.2.2.1 (MCPClient.make "/mcp" []) initialSseState
      { sessionId? := some (.generated 7), headers := [] } (.dispatch .toolsList)
      7 rfl rfl).1
  · exact (c3_post_statuses.2.2.2.1 (MCPClient.make "/mcp" []) initialSseState
      { sessionId? := some (.str "zzz"), headers := [] } (.dispatch .toolsList)
      "zzz" rfl (by decide) (by decide)).1
  · exact c3_post_statuses.2.2.2.2.2.1 _ _ _ 0 (.other "x") rfl rfl

/-- C3 counterexample: the claim as stated fails for an identifier naming a
property inherited from `Object.prototype` — `sessionId=constructor` is not
registered, yet the plain-object read is truthy, the not-found guard is
skipped, and the thrown `TypeError` is answered with 500, not 404. -/
theorem c3_counterexample :
    (postMessage (MCPClient.make "/mcp" []) initialSseState
      { sessionId? := some (.str "constructor"), headers := [] }
      (.dispatch .toolsList)).2.status = some 500 ∧
    (postMessage (MCPClient.make "/mcp" []) initialSseState
      { sessionId? := some (.str "constructor"), headers := [] }
      (.dispatch .toolsList)).2.forwarded = false ∧
    (some 500 : Option Nat) ≠ some 404 := by
  refine ⟨rfl, rfl, by decide⟩

/-- C8 (amended): provided at least one tool handler was registered — the
`tools/call` handler is only installed then (`if (toolHandlerMap.size > 0)`)
— a `tools/call` naming an unregistered tool yields a normal protocol
result frame flagged as an error and naming the unknown tool, the post is
acknowledged rather than failed, no user handler runs, and the registry is
untouched, so the session stays usable. -/
theorem c8_unknown_tool (client : MCPClient) (st : SseState) (req : PostRequest)
    (name : String) (args? : Option JsValue) (sid : Nat)
    (hlen : 0 < client.toolHandlerMap.length)
    (hno : recordLookup client.toolHandlerMap name = none)
    (hsid : req.sessionId? = some (.generated sid))
    (hfound : (recordLookup st.activeTransports sid).isSome = true) :
    (postMessage client st req (.dispatch (.toolsCall name args?))).2.frame =
      some (.result (errorFlaggedResponse ("Error: Unknown tool '" ++ name ++ "'"))) ∧
    (postMessage client st req (.dispatch (.toolsCall name args?))).2.status = some 202 ∧
    (postMessage client st req (.dispatch (.toolsCall name args?))).1 = st ∧
    (postMessage client st req (.dispatch (.toolsCall name args?))).2.invocation = none := by
  rcases Option.isSome_iff_exists.mp hfound with ⟨t, ht⟩
  refine ⟨?_, ?_, postMessage_fst _ _ _ _, ?_⟩ <;>
    simp [postMessage, hsid, ht, forwardViaTransport, engineDispatch, hlen,
      callToolRequestHandler, hno]

/-- C8 witness: a concrete registry with one tool, called with an unknown
name. -/
theorem c8_witness :
    (postMessage
      (MCPClient.make "/mcp"
        [⟨"get_weather", .str "d", .undefined, fun _ _ => .ok (.str "72F")⟩])
      (sseOpen initialSseState true false).1
      { sessionId? := some (.generated 0), headers := [] }
      (.dispatch (.toolsCall "ghost_tool" none))).2.frame =
      some (.result (errorFlaggedResponse "Error: Unknown tool 'ghost_tool'")) := by
  exact (c8_unknown_tool
    (MCPClient.make "/mcp"
      [⟨"get_weather", .str "d", .undefined, fun _ _ => .ok (.str "72F")⟩])
    (sseOpen initialSseState true false).1
    { sessionId? := some (.generated 0), headers := [] }
    "ghost_tool" none 0 (by decide) rfl rfl rfl).1

/-- C8 counterexample: the claim as stated fails when no tool is
registered — the `tools/call` handler is then never installed, so an
unknown-tool call is answered by the engine's method-not-found fallback,
not by an `isError`-flagged response naming the tool. -/
theorem c8_counterexample :
    (postMessage (MCPClient.make "/mcp" []) (sseOpen initialSseState true false).1
      { sessionId? := some (.generated 0), headers := [] }
      (.dispatch (.toolsCall "ghost_tool" none))).2.frame =
      some (.methodNotFound "tools/call") ∧
    (postMessage (MCPClient.make "/mcp" []) (sseOpen initialSseState true false).1
      { sessionId? := some (.generated 0), headers := [] }
      (.dispatch (.toolsCall "ghost_tool" none))).2.frame ≠
      some (.result (errorFlaggedResponse "Error: Unknown tool 'ghost_tool'")) := by
  have h1 : (postMessage (MCPClient.make "/mcp" []) (sseOpen initialSseState true false).1
      { sessionId? := some (.generated 0), headers := [] }
      (.dispatch (.toolsCall "ghost_tool" none))).2.frame =
      some (.methodNotFound "tools/call") := rfl
  refine ⟨h1, ?_⟩
  rw [h1]
  intro hc
  exact EngineFrame.noConfusion (Option.some_inj.mp hc)

/-- C2: opening the stream endpoint yields a session identifier absent from
the registry beforehand (given the freshness invariant the identifier
source maintains) and mapped to the new transport immediately after, with
the keepalive scheduled; when the connection closes, the keepalive is
cancelled, the transport closed and the entry removed, and any subsequent
post carrying that identifier — after any further server activity — gets a
404 and is never forwarded. -/
theorem c2_session_lifecycle (st : SseState) (hInv : SessionInv st)
    (st1 : SseState) (conn : SseConn) (hopen : sseOpen st true false = (st1, conn))
    (st2 : SseState) (eff : CloseEffect)
    (hclose : sseClose st1 conn { sessionId := conn.sessionId, closed := false } =
      (st2, eff)) :
    recordLookup st.activeTransports conn.sessionId = none ∧
    recordLookup st1.activeTransports conn.sessionId =
      some { sessionId := conn.sessionId, closed := false } ∧
    conn.pingActive = true ∧
    eff.pingCleared = true ∧
    eff.transportAfter.closed = true ∧
    recordLookup st2.activeTransports conn.sessionId = none ∧
    ∀ (st' : SseState) (client : MCPClient) (req : PostRequest)
      (beh : TransportBehavior), ServerReach st2 st' →
      req.sessionId? = some (.generated conn.sessionId) →
      (postMessage client st' req beh).2.status = some 404 ∧
      (postMessage client st' req beh).2.forwarded = false := by
  have hst1 : st1 = (sseOpen st true false).1 := by rw [hopen]
  have hconn : conn = (sseOpen st true false).2 := by rw [hopen]
  subst hst1
  subst hconn
  have hst2 : st2 = (sseClose (sseOpen st true false).1 (sseOpen st true false).2
      { sessionId := (sseOpen st true false).2.sessionId, closed := false }).1 := by
    rw [hclose]
  have heff : eff = (sseClose (sseOpen st true false).1 (sseOpen st true false).2
      { sessionId := (sseOpen st true false).2.sessionId, closed := false }).2 := by
    rw [hclose]
  subst hst2
  subst heff
  refine ⟨sessionInv_lookup_fresh st hInv, recordLookup_set_self _ _ _, rfl, rfl, rfl,
    recordLookup_remove_self _ _, ?_⟩
  intro st' client req beh hreach hreq
  have hstale := serverReach_keeps_stale _ st' hreach st.nextId
    (Nat.lt_succ_self _) (recordLookup_remove_self _ _)
  have hnone' : recordLookup st'.activeTransports st.nextId = none := hstale.2
  have hsideq : (SessionKey.generated (sseOpen st true false).2.sessionId) =
      SessionKey.generated st.nextId := rfl
  rw [hsideq] at hreq
  constructor
  · simp [postMessage, hreq, hnone']
  · simp [postMessage, hreq, hnone']

/-- C2 witness: the lifecycle evaluated from the empty initial state. -/
theorem c2_witness :
    (postMessage (MCPClient.make "/mcp" [])
      (sseClose (sseOpen initialSseState true false).1
        (sseOpen initialSseState true false).2 { sessionId := 0, closed := false }).1
      { sessionId? := some (.generated 0), headers := [] }
      (.throwBefore (.other "x"))).2.status = some 404 := by
  have h := c2_session_lifecycle initialSseState
    (fun p hp => absurd hp (List.not_mem_nil p)) _ _ rfl _ _ rfl
  exact (h.2.2.2.2.2.2 _ (MCPClient.make "/mcp" [])
    { sessionId? := some (.generated 0), headers := [] } (.throwBefore (.other "x"))
    Relation.ReflTransGen.refl rfl).1

/-- The result of `find?` only depends on the predicate's values on the list. -/
theorem find?_congr_mem {α : Type} (l : List α) (p q : α → Bool)
    (h : ∀ t ∈ l, p t = q t) : l.find? p = l.find? q := by
  induction l with
  | nil => rfl
  | cons a l ih =>
      have ha := h a (List.mem_cons_self a l)
      cases hqa : q a with
      | true => simp only [List.find?_cons, ha, hqa]
      | false =>
          simp only [List.find?_cons, ha, hqa]
          exact ih (fun t ht => h t (List.mem_cons_of_mem a ht))

/-- The names listed by `getTools` are exactly the own keys of the
definitions record. -/
theorem make_getTools_names (endpoint : String) (tools : List ToolImpl) :
    (MCPClient.make endpoint tools).getTools.map Prod.fst =
      (buildToolDefinitionsMap tools).own.map Prod.fst := by
  show ((buildToolDefinitionsMap tools).own.map
      (fun p => (p.2.name, descriptionOrEmpty p.2.description))).map Prod.fst =
    (buildToolDefinitionsMap tools).own.map Prod.fst
  rw [List.map_map]
  apply List.map_congr_left
  intro p hp
  exact name_eq_key_foldl_defMapStep tools { own := [], proto := none }
    (fun q hq => absurd hq (List.not_mem_nil q)) p hp

/-- C7 (amended): for a name other than `__proto__`, the listing contains
it iff some specification with that name passed validation against the
protocol's tool-definition schema, each listed name appearing exactly once
(a valid `__proto__`-named specification is assigned through the inherited
prototype setter and never reaches the listing); a failing specification's
handler is excluded from the handler map provided no same-named
specification passed validation, the name is not a property inherited from
`Object.prototype` (such names make the name-only guard truthy), and no
valid `__proto__`-named specification replaced the prototype; failures
never abort construction. -/
theorem c7_tool_registry_validation (endpoint : String) (tools : List ToolImpl)
    (n : String) (hn : n ≠ "__proto__") :
    (n ∈ (MCPClient.make endpoint tools).getTools.map Prod.fst ↔
      ∃ t ∈ tools, t.name = n ∧ toolSchemaParseOk (buildToolDefinition t) = true) ∧
    ((MCPClient.make endpoint tools).getTools.map Prod.fst).Nodup ∧
    ((∀ t ∈ tools, t.name = "__proto__" →
        toolSchemaParseOk (buildToolDefinition t) = false) →
      n ∉ objectProtoProps →
      (¬ ∃ t ∈ tools, t.name = n ∧ toolSchemaParseOk (buildToolDefinition t) = true) →
      recordLookup (MCPClient.make endpoint tools).toolHandlerMap n = none) := by
  refine ⟨?_, ?_, ?_⟩
  · rw [make_getTools_names, ← recordLookup_isSome_iff_mem_keys]
    exact defMap_lookup_isSome_iff tools n hn
  · rw [make_getTools_names]
    exact nodup_keys_foldl_defMapStep tools { own := [], proto := none } (by simp)
  · intro hnop hnp hnone
    have hproto : (buildToolDefinitionsMap tools).proto = none :=
      proto_foldl_defMapStep tools { own := [], proto := none } hnop
    show recordLookup (buildToolHandlerMap tools (buildToolDefinitionsMap tools)) n = none
    unfold buildToolHandlerMap
    rw [lookup_foldl_handlerMapStep]
    have hfind : tools.reverse.find? (handlerMapHit n (buildToolDefinitionsMap tools)) =
        none := by
      rw [List.find?_eq_none]
      intro t ht hc
      simp only [handlerMapHit, Bool.and_eq_true, decide_eq_true_eq] at hc
      rcases hc with ⟨hname, htruthy⟩
      rw [hname] at htruthy
      have h1 : ¬((recordLookup (buildToolDefinitionsMap tools).own n).isSome = true) :=
        fun hs => hnone ((defMap_lookup_isSome_iff tools n hn).mp hs)
      simp only [toolDefReadTruthy, if_neg h1, hproto] at htruthy
      exact hnp (of_decide_eq_true htruthy)
    rw [hfind]
    rfl

/-- C7 witness: a name no specification validly bears, not inherited from
the prototype, has no handler. -/
theorem c7_witness :
    recordLookup (MCPClient.make "/mcp"
      [⟨"t", .str "d", .undefined, fun _ _ => .ok (.str "A")⟩]).toolHandlerMap
      "ghost" = none := by
  refine (c7_tool_registry_validation "/mcp"
    [⟨"t", .str "d", .undefined, fun _ _ => .ok (.str "A")⟩] "ghost"
    (by decide)).2.2 (by decide) (by decide) ?_
  rintro ⟨t, ht, hname, hok⟩
  rcases List.mem_singleton.mp ht with rfl
  exact absurd hname (by decide)

/-- C7 counterexample: the claim's exclusion of failing specifications from
the handler map fails three ways — a failing specification sharing a
passing one's name has its handler registered; a failing specification
named `constructor`, with no passing same-named specification at all, still
has its handler registered (the name-only guard reads the inherited
`Object.prototype.constructor`, which is truthy); and a passing
specification named `__proto__` never reaches the listing (its assignment
hits the inherited prototype setter). -/
theorem c7_counterexample :
    toolSchemaParseOk (buildToolDefinition
      ⟨"t", .num 5, .undefined, fun _ _ => .ok (.str "B")⟩) = false ∧
    ((recordLookup (MCPClient.make "/mcp"
        [⟨"t", .str "A", .undefined, fun _ _ => .ok (.str "A")⟩,
         ⟨"t", .num 5, .undefined, fun _ _ => .ok (.str "B")⟩]).toolHandlerMap
        "t").map (fun h => h (.obj .nil) none)) =
      some (.ok (.str "B")) ∧
    toolSchemaParseOk (buildToolDefinition
      ⟨"constructor", .num 5, .undefined, fun _ _ => .ok (.str "C")⟩) = false ∧
    ((recordLookup (MCPClient.make "/mcp"
        [⟨"constructor", .num 5, .undefined, fun _ _ => .ok (.str "C")⟩]).toolHandlerMap
        "constructor").map (fun h => h (.obj .nil) none)) =
      some (.ok (.str "C")) ∧
    toolSchemaParseOk (buildToolDefinition
      ⟨"__proto__", .str "d", .undefined, fun _ _ => .ok (.str "P")⟩) = true ∧
    (MCPClient.make "/mcp"
      [⟨"__proto__", .str "d", .undefined, fun _ _ => .ok (.str "P")⟩]).getTools =
      [] := by
  exact ⟨rfl, rfl, rfl, rfl, rfl, rfl⟩

/-- C10 (amended): when several specifications share a name other than
`__proto__` and all of them pass validation, the later ones silently
overwrite the earlier in both maps: the definition stored under the name is
the last such specification's, the handler invoked is the last
specification's, and the listing carries the name exactly once, with the
last specification's description.  (For the name `__proto__` the
assignments hit the inherited prototype setter and the name is listed zero
times — see the counterexample.) -/
theorem c10_duplicate_tool_names (endpoint : String) (tools : List ToolImpl)
    (n : String) (tl : ToolImpl) (hn : n ≠ "__proto__")
    (hlast : lastSpecNamed tools n = some tl)
    (hall : ∀ t ∈ tools, t.name = n → toolSchemaParseOk (buildToolDefinition t) = true)
    (hmulti : 2 ≤ tools.countP (fun t => decide (t.name = n))) :
    recordLookup (MCPClient.make endpoint tools).toolDefinitionsMap.own n =
      some (buildToolDefinition tl) ∧
    recordLookup (MCPClient.make endpoint tools).toolHandlerMap n = some tl.handler ∧
    (MCPClient.make endpoint tools).getTools.filter (fun p => decide (p.1 = n)) =
      [(n, descriptionOrEmpty tl.description)] := by
  have hlast' : tools.reverse.find? (fun t => decide (t.name = n)) = some tl := hlast
  have htl_name : tl.name = n := by
    have h := List.find?_some hlast'
    simpa using h
  have htl_mem : tl ∈ tools := List.mem_reverse.mp (List.mem_of_find?_eq_some hlast')
  have h1 : recordLookup (buildToolDefinitionsMap tools).own n =
      some (buildToolDefinition tl) := by
    unfold buildToolDefinitionsMap
    rw [lookup_foldl_defMapStep tools { own := [], proto := none } n hn]
    have hfind : tools.reverse.find? (defMapHit n) = some tl := by
      rw [find?_congr_mem tools.reverse (defMapHit n) (fun t => decide (t.name = n))]
      · exact hlast'
      · intro t ht
        unfold defMapHit
        by_cases htn : t.name = n
        · rw [hall t (List.mem_reverse.mp ht) htn]
          simp [htn]
        · simp [htn]
    rw [hfind]
  have hsome : (recordLookup (buildToolDefinitionsMap tools).own n).isSome = true := by
    rw [h1]; rfl
  have h2 : recordLookup (buildToolHandlerMap tools (buildToolDefinitionsMap tools)) n =
      some tl.handler := by
    unfold buildToolHandlerMap
    rw [lookup_foldl_handlerMapStep]
    have hfind : tools.reverse.find? (handlerMapHit n (buildToolDefinitionsMap tools)) =
        some tl := by
      rw [find?_congr_mem tools.reverse _ (fun t => decide (t.name = n))]
      · exact hlast'
      · intro t ht
        by_cases htn : t.name = n
        · simp [handlerMapHit, htn, toolDefReadTruthy, hsome]
        · simp [handlerMapHit, htn]
    rw [hfind]
  refine ⟨h1, h2, ?_⟩
  have hnodup : ((buildToolDefinitionsMap tools).own.map Prod.fst).Nodup :=
    nodup_keys_foldl_defMapStep tools { own := [], proto := none } (by simp)
  have hfilter : (buildToolDefinitionsMap tools).own.filter (fun p => decide (p.1 = n)) =
      [(n, buildToolDefinition tl)] :=
    filter_eq_singleton_of_lookup _ n _ hnodup h1
  show ((buildToolDefinitionsMap tools).own.map
      (fun p => (p.2.name, descriptionOrEmpty p.2.description))).filter
      (fun p => decide (p.1 = n)) = [(n, descriptionOrEmpty tl.description)]
  rw [List.filter_map]
  have hcongr : (buildToolDefinitionsMap tools).own.filter
      ((fun p => decide (p.1 = n)) ∘
        (fun p => (p.2.name, descriptionOrEmpty p.2.description))) =
      (buildToolDefinitionsMap tools).own.filter (fun p => decide (p.1 = n)) := by
    apply List.filter_congr
    intro p hp
    have hname := name_eq_key_foldl_defMapStep tools { own := [], proto := none }
      (fun q hq => absurd hq (List.not_mem_nil q)) p hp
    simp [Function.comp, hname]
  rw [hcongr, hfilter, List.map_cons, List.map_nil]
  have : (buildToolDefinition tl).name = n := by
    show tl.name = n
    exact htl_name
  rw [this]
  rfl

/-- C10 witness: two valid specifications named `t`; the listing and the
maps carry the second one. -/
theorem c10_witness :
    (MCPClient.make "/mcp"
      [⟨"t", .str "first", .undefined, fun _ _ => .ok (.str "A")⟩,
       ⟨"t", .str "second", .undefined, fun _ _ => .ok (.str "B")⟩]).getTools.filter
      (fun p => decide (p.1 = "t")) = [("t", "second")] := by
  exact (c10_duplicate_tool_names "/mcp"
    [⟨"t", .str "first", .undefined, fun _ _ => .ok (.str "A")⟩,
     ⟨"t", .str "second", .undefined, fun _ _ => .ok (.str "B")⟩] "t"
    ⟨"t", .str "second", .undefined, fun _ _ => .ok (.str "B")⟩ (by decide) rfl
    (by intro t ht htn
        rcases List.mem_cons.mp ht with rfl | ht2
        · rfl
        · rcases List.mem_singleton.mp ht2 with rfl
          rfl)
    (by decide)).2.2

/-- C10 counterexample: the claim as stated fails for the shared name
`__proto__` — both duplicate specifications pass validation, yet each
assignment invokes the inherited prototype setter and adds no own
property, so the listing carries the name zero times, not once. -/
theorem c10_counterexample :
    toolSchemaParseOk (buildToolDefinition
      ⟨"__proto__", .str "first", .undefined, fun _ _ => .ok (.str "A")⟩) = true ∧
    toolSchemaParseOk (buildToolDefinition
      ⟨"__proto__", .str "second", .undefined, fun _ _ => .ok (.str "B")⟩) = true ∧
    (MCPClient.make "/mcp"
      [⟨"__proto__", .str "first", .undefined, fun _ _ => .ok (.str "A")⟩,
       ⟨"__proto__", .str "second", .undefined, fun _ _ => .ok (.str "B")⟩]).getTools.filter
      (fun p => decide (p.1 = "__proto__")) = [] ∧
    ([] : List (String × String)) ≠
      [("__proto__", descriptionOrEmpty (.str "second"))] := by
  refine ⟨rfl, rfl, rfl, by decide⟩

/-- C9 (amended): the stored base path starts with a path separator and
does not end with one, provided the supplied endpoint is nonempty, is not
the bare separator, and does not end in a doubled separator.  (As stated
the claim fails: normalizing `"/"` stores the empty string, and only one
trailing separator is stripped, so `"//"` stores `"/"` — see the
counterexample.)  The path is a constructor-time field, never written
again. -/
theorem c9_endpoint_normalization (e : String) (h1 : e.data ≠ [])
    (h2 : e.data ≠ ['/']) (h3 : ¬ ['/', '/'] <:+ e.data) :
    (normalizeEndpoint e).data.head? = some '/' ∧
    (normalizeEndpoint e).data.getLast? ≠ some '/' := by
  have hd : (normalizeEndpoint e).data = normalizeChars e.data := rfl
  rw [hd]
  exact normalizeChars_spec e.data h1 h2 h3

/-- C9 witness: a well-formed endpoint with one trailing separator. -/
theorem c9_witness :
    (normalizeEndpoint "/api/").data.head? = some '/' ∧
    (normalizeEndpoint "/api/").data.getLast? ≠ some '/' :=
  c9_endpoint_normalization "/api/" (by decide) (by decide) (by decide)

/-- C9 counterexample: the claim as stated fails — the endpoint `"/"`
normalizes to the empty string (which does not start with a separator), and
`"//"` normalizes to `"/"` (which ends with one). -/
theorem c9_counterexample :
    normalizeEndpoint "/" = "" ∧
    ¬ ((normalizeEndpoint "/").data.head? = some '/') ∧
    normalizeEndpoint "//" = "/" ∧
    (normalizeEndpoint "//").data.getLast? = some '/' := by
  refine ⟨by decide, by decide, by decide, by decide⟩

/-- C6 witness: a concrete throwing handler — propagated by the wrapper,
converted at the invocation boundary. -/
theorem c6_witness :
    mcpToolHandler (fun a => .ok a) none
      (fun _ _ => .error (.other "boom")) (.obj .nil) none = .error (.other "boom") ∧
    callToolRequestHandler [("t", fun _ _ => .error (.other "boom"))]
      (some [("h", "v")]) "t" none =
      (.result (errorFlaggedResponse "Error executing tool t: boom"),
       some { toolName := "t", contextHeaders := [("h", "v")] }) := by
  constructor
  · exact c6_execution_error_propagation.1 (fun a => .ok a) none
      (fun _ _ => .error (.other "boom")) (.obj .nil) none (.obj .nil) "boom" rfl rfl
  · have h := c6_execution_error_propagation.2.1
      [("t", fun _ _ => .error (.other "boom"))] (some [("h", "v")]) "t" none
      (fun _ _ => .error (.other "boom")) (.other "boom") rfl rfl
    refine h.trans ?_
    rfl

end Mea
